import Mathlib

/-!
Verification of the mapEditor grid-editing core

Shallow embedding of `src/Canvas.ts` (class `EditableCanvas`, current
revision) and `src/Cell.ts`.  JavaScript arrays of numbers that may
contain holes (`undefined` slots) are modelled as `List (Option Int)`:
`none` is a hole/undefined slot, and reads/writes at integer indices
follow JavaScript array semantics (`jsGet` / `jsSet` below).  Canvas
drawing calls (`fillRect`, `strokeRect`, `clearRect`, resizing) have no
effect on the modelled state and are dropped; each method that can throw
a JavaScript `TypeError` is modelled as returning a `Bool` flag
(`true` = the method threw) together with the state as mutated up to the
throw point, since JavaScript exceptions do not roll back prior
mutations.
-/

namespace MapEditor

/-- A JavaScript array slot: `none` models a hole / `undefined`. -/
abbrev JsArr (α : Type) := List (Option α)

/-- JavaScript read `l[i]`: `undefined` (`none`) for negative indices,
holes and out-of-range indices. -/
def jsGet {α : Type} (l : JsArr α) (i : Int) : Option α :=
  if 0 ≤ i then (l.getD i.toNat none) else none

/-- JavaScript write `l[i] = v`: in-range indices are overwritten; an index
at or beyond the length extends the array with holes; a negative index
is a plain property write, invisible to the array contents. -/
def jsSet {α : Type} (l : JsArr α) (i : Int) (v : α) : JsArr α :=
  if 0 ≤ i then
    if i.toNat < l.length then l.set i.toNat (some v)
    else l ++ List.replicate (i.toNat - l.length) none ++ [some v]
  else l

/-- Source `interface Vector` of `Canvas.ts`. -/
structure Vector where
  x : Int
  y : Int
deriving DecidableEq, Repr

/-- A row of the map: a JavaScript array of cell-type codes. -/
abbrev Row := JsArr Int

/-- Source field `this.map : number[][]`, a JavaScript array of rows. -/
abbrev Grid := JsArr Row

/-- Source `interface Cell` (current revision): type code, color
and the aux-data flag consulted by `fillCell` (`cell.celldata`); absent
flags read as `undefined`, i.e. `false`. -/
structure CellDef where
  type : Int
  color : Int
  celldata : Bool
deriving DecidableEq, Repr

/-- Modelled from the spec: the current revision of `Cell.ts` (the one
with the `requiresAuxData`/`celldata` flags and the extended type
enumeration referenced by `Canvas.ts` and `Input.ts`) is not under
`src/`; the registry `CELL_DEFNS` is therefore kept abstract as a
partial lookup from a type code to its `CellDefinition` (`none` models
`CELL_DEFNS[i] === undefined`, i.e. an index outside the array). -/
def CellRegistry := Int → Option CellDef

/-- The seven-entry `CELL_DEFNS` table of the revision of `Cell.ts`
that is under `src/` (its entries carry no `celldata` property, so the
flag reads as `false`). -/
def CELL_DEFNS : List CellDef :=
  [⟨0, 0xa0ced9, false⟩, ⟨1, 0xadf7b6, false⟩, ⟨2, 0x581f18, false⟩,
   ⟨3, 0x800080, false⟩, ⟨4, 0xdbf7ff, false⟩, ⟨5, 0xff7d00, false⟩,
   ⟨6, 0x9b9ea1, false⟩]

/-- Lookup `CELL_DEFNS[i]` of a definition table as a registry. -/
def defnsOfList (l : List CellDef) : CellRegistry := fun i =>
  if h : 0 ≤ i ∧ i.toNat < l.length then some (l.get ⟨i.toNat, h.2⟩) else none

/-- The mutable fields of `EditableCanvas` (plus the `Input` record it
owns); canvas/context objects are external and carry no modelled
state.  `celldata` is the key set of the `Map<string, object>`: the
key `hash(x,y) = "x_y"` is in bijection with the pair `(x, y)`, and the
stored record is always the default `{cell: {x, y}}` written by
`assignCelldata`, hence determined by the key. -/
structure EState where
  map : Grid
  spawnPos : Vector
  cellLen : Int
  cursorRadius : Int
  celldata : List (Int × Int)
  selectedCell : Int
  leftPressed : Bool
  rightPressed : Bool
  clientX : Int
  clientY : Int
deriving DecidableEq, Repr

/-- Source `deleteCelldata(x, y)`: `Map.delete` of the key for `(x, y)`. -/
def deleteCelldata (s : List (Int × Int)) (k : Int × Int) : List (Int × Int) :=
  s.filter (fun e => e ≠ k)

/-- Source `assignCelldata(x, y)`: `Map.set` of the key for `(x, y)` to the
default record; a present key keeps its position, an absent key is
appended. -/
def assignCelldata (s : List (Int × Int)) (k : Int × Int) : List (Int × Int) :=
  if k ∈ s then s else s ++ [k]

/-- The pixel-to-cell conversion of `fillCell`: `x -= x % cellLen`
followed by `x / cellLen`.  JavaScript `%` truncates toward zero
(`Int.tmod`), and after the subtraction the division is exact. -/
def pixelToCell (x L : Int) : Int := Int.tdiv (x - Int.tmod x L) L

/-- Source `fillCell(x, y, cell)` of the current `Canvas.ts` (lines 119-148).
Returns the state after the call together with `true` when the call
throws.  Reading `CELL_DEFNS[row[x / cellLen]].celldata` throws a
`TypeError` whenever `row[x / cellLen]` is `undefined` (missing row
entry, hole, column beyond the row length, negative column) or the
stored code has no registry entry, because `CELL_DEFNS[undefined]` and a
missing entry are both `undefined`.  Consequently the
`if (redrawCanvas) this.repaintCanvas()` call is unreachable: every
path that sets `redrawCanvas` throws first. -/
def fillCell (defns : CellRegistry) (st : EState) (x y : Int) (cell : CellDef) :
    EState × Bool :=
  let L := st.cellLen
  let cx := pixelToCell x L
  let cy := pixelToCell y L
  match jsGet st.map cy with
  | none =>
      -- `row = this.map[y / cellLen] = []`, `redrawCanvas = true`; then
      -- `CELL_DEFNS[row[x / cellLen]].celldata` with `row = []` throws.
      ({ st with map := jsSet st.map cy ([] : Row) }, true)
  | some row =>
      match jsGet row cx with
      | none => (st, true)
      | some v =>
          match defns v with
          | none => (st, true)
          | some dOld =>
              let cd1 := if dOld.celldata then deleteCelldata st.celldata (cx, cy)
                         else st.celldata
              let row' := jsSet row cx cell.type
              let m' := jsSet st.map cy row'
              let cd2 := if cell.celldata then assignCelldata cd1 (cx, cy) else cd1
              -- `fillStyle` / `fillRect` touch only the canvas; the
              -- `redrawCanvas` branch is dead (see above).
              ({ st with map := m', celldata := cd2 }, false)

/-- The `maxRowLen` reduction of `formatMap`; `Array.prototype.reduce`
skips holes. -/
def maxRowLen (m : Grid) : Nat :=
  m.foldl (fun acc r => match r with | some row => max acc row.length | none => acc) 0

/-- One iteration of the row loop of `formatMap`: materialize a missing
row, coerce `undefined` cells to `0`, pad with `0` to `maxLen`. -/
def formatRow (maxLen : Nat) (r : Option Row) : Row :=
  let base := (r.getD []).map (fun c => some (c.getD 0))
  base ++ List.replicate (maxLen - base.length) (some 0)

/-- The row loop of `formatMap` (everything before the final spawn-cell
write): each row is rewritten in place using the pre-computed maximum
row length. -/
def formatMapCore (m : Grid) : Grid := m.map (fun r => some (formatRow (maxRowLen m) r))

/-- Source `formatMap()` of `Canvas.ts` (lines 324-339).  The final statement
`this.map[spawnPos.y][spawnPos.x] = CellType.AIR` throws when row
`spawnPos.y` is `undefined` (after the loop, exactly when `spawnPos.y`
is outside `[0, map.length)`); the rows are already normalized at that
point, so the thrown state keeps the formatted rows. -/
def formatMap (st : EState) : EState × Bool :=
  let m := formatMapCore st.map
  match jsGet m st.spawnPos.y with
  | none => ({ st with map := m }, true)
  | some row =>
      ({ st with map := jsSet m st.spawnPos.y (jsSet row st.spawnPos.x 0) }, false)

/-- The inner `row.forEach` of `repaintCanvas`: visits the column
indices of one row in order, skipping holes (`forEach` semantics),
reading the live state, and calling `fillCell` with `CELL_DEFNS[cell]`.
When `CELL_DEFNS[cell]` is `undefined` the nested `fillCell` throws at
its own registry lookup of the same stored code before touching the
argument, leaving the state unchanged; a throw aborts the whole
repaint (there is no catch in `repaintCanvas`). -/
def repaintCells (defns : CellRegistry) (rowIdx : Nat) :
    List Nat → EState → EState × Bool
  | [], st => (st, false)
  | col :: rest, st =>
      match jsGet st.map (rowIdx : Int) with
      | none => repaintCells defns rowIdx rest st
      | some row =>
          match jsGet row (col : Int) with
          | none => repaintCells defns rowIdx rest st
          | some v =>
              match defns v with
              | none => (st, true)
              | some d =>
                  let r := fillCell defns st ((col : Int) * st.cellLen)
                             ((rowIdx : Int) * st.cellLen) d
                  if r.2 then (r.1, true) else repaintCells defns rowIdx rest r.1

/-- The outer `this.map.forEach` of `repaintCanvas`: visits row indices
in order, skipping holes; each row's column range is sampled when the
row is visited. -/
def repaintRows (defns : CellRegistry) :
    List Nat → EState → EState × Bool
  | [], st => (st, false)
  | r :: rest, st =>
      match jsGet st.map (r : Int) with
      | none => repaintRows defns rest st
      | some row =>
          match repaintCells defns r (List.range row.length) st with
          | (st', true) => (st', true)
          | (st', false) => repaintRows defns rest st'

/-- Source `repaintCanvas()` (lines 231-247): `formatMap`, canvas resize and
clear (no modelled state), then the nested `forEach` repaint of every
cell, then `paintSpawnPos` and `paintCursor` (canvas only). -/
def repaintCanvas (defns : CellRegistry) (st : EState) : EState × Bool :=
  match formatMap st with
  | (st1, true) => (st1, true)
  | (st1, false) => repaintRows defns (List.range st1.map.length) st1

/-- Source `setCellLen(cellLen)` (lines 305-308). -/
def setCellLen (defns : CellRegistry) (st : EState) (len : Int) : EState × Bool :=
  repaintCanvas defns { st with cellLen := len }

/-- Source `setSpawnPos(newSpawnPos)` (lines 285-302).  The guard clause is
evaluated left to right with short-circuiting, so `this.map[0].length`
is only read when both coordinates are non-negative; `this.spawnPos`
is assigned before `this.map[y][x] = AIR`, so a throw on a missing row
leaves the new spawn position in place.  `paintCell`/`paintSpawnPos`
touch only the canvas. -/
def setSpawnPos (st : EState) (newSpawnPos : Vector) : EState × Bool :=
  if newSpawnPos.x < 0 then (st, false)
  else if newSpawnPos.y < 0 then (st, false)
  else
    match jsGet st.map 0 with
    | none => (st, true)
    | some row0 =>
        if (row0.length : Int) ≤ newSpawnPos.x ∨ (st.map.length : Int) ≤ newSpawnPos.y
        then (st, false)
        else
          match jsGet st.map newSpawnPos.y with
          | none => ({ st with spawnPos := newSpawnPos }, true)
          | some r =>
              ({ st with spawnPos := newSpawnPos,
                         map := jsSet st.map newSpawnPos.y (jsSet r newSpawnPos.x 0) },
               false)

/-- Source `updateCursorPos(newX?, newY?)` (lines 268-278): `repaintRegion`
and `paintCursor` only touch the canvas (every out-of-range read inside
`repaintRegion` is caught); the input position is stored only when
`newX && newY` is truthy, i.e. both arguments are supplied and both are
nonzero. -/
def updateCursorPos (st : EState) (newX newY : Option Int) : EState :=
  match newX, newY with
  | some nx, some ny =>
      if nx ≠ 0 ∧ ny ≠ 0 then { st with clientX := nx, clientY := ny } else st
  | _, _ => st

/-- Source `setCursorRadius(cursorRadius)` (lines 314-318): rejected outside
`[0, 20]`; otherwise stores the radius and calls `updateCursorPos()`
with no arguments, which repaints but changes no modelled state. -/
def setCursorRadius (st : EState) (r : Int) : EState :=
  if r < 0 ∨ r > 20 then st
  else updateCursorPos { st with cursorRadius := r } none none

/-- Source `fillRegion(x, y, cell)` (lines 158-178): floors the pixel
coordinates, then loops `pY`/`pX` from `-pxRadius` to `+pxRadius` in
steps of `cellLen`, calling `fillCell` under `try {} catch {}` (the
state as mutated up to a throw is kept, the throw is swallowed).  The
step counts are exact because `pxRadius = cursorRadius * cellLen`; for
`cellLen ≤ 0` the source loop would not terminate (the input layer
keeps `cellLen ≥ 4`), modelled as zero iterations.  Ends with
`paintSpawnPos` (canvas only). -/
def fillRegion (defns : CellRegistry) (st : EState) (x y : Int) (cell : CellDef) :
    EState :=
  let L := st.cellLen
  let x0 := x - Int.tmod x L
  let y0 := y - Int.tmod y L
  let pxRadius := st.cursorRadius * L
  let steps : Nat := if 0 < L then (Int.tdiv (2 * pxRadius) L + 1).toNat else 0
  (List.range steps).foldl
    (fun s j =>
      (List.range steps).foldl
        (fun s2 i =>
          (fillCell defns s2 (x0 - pxRadius + (i : Int) * L)
            (y0 - pxRadius + (j : Int) * L) cell).1)
        s)
    st

/-- The map-file payload written by `save()`:
`{data: this.map, spawnPosition: this.spawnPos}`, serialized after
`formatMap()` has run; `none` when `formatMap` throws (nothing is
downloaded then). -/
def savePayload (st : EState) : Option (Grid × Vector) :=
  match formatMap st with
  | (_, true) => none
  | (st1, false) => some (st1.map, st1.spawnPos)

/-- The state effect of `save()` (lines 356-375): `formatMap`, then two
downloads (external); collecting and sorting the celldata values copies
them without mutating the state. -/
def save (st : EState) : EState × Bool := formatMap st

/-- The deserialization performed by the `EditableCanvas` constructor
(lines 67-92) on the map-file payload: `this.map = JSON.data` and
`this.spawnPos = JSON.spawnPosition`, with the remaining fields given
their initial values (`cellLen = initialCellLen = 10`,
`cursorRadius = 1`, input defaults, celldata read from the companion
celldata file `cd`). -/
def loadFromPayload (cd : List (Int × Int)) (p : Grid × Vector) : EState :=
  { map := p.1, spawnPos := p.2, cellLen := 10, cursorRadius := 1,
    celldata := cd, selectedCell := 1, leftPressed := false,
    rightPressed := false, clientX := 0, clientY := 0 }

/-- The spawn-cell value read `this.map[y][x]` as an `Option`. -/
def readCell (m : Grid) (y x : Int) : Option Int :=
  match jsGet m y with
  | none => none
  | some row => jsGet row x

/-- The invariant claimed by the spec: the grid array value at the
current spawn position is the empty code `0` (`CellType.AIR`). -/
def spawnInv (st : EState) : Prop :=
  readCell st.map st.spawnPos.y st.spawnPos.x = some 0

instance (st : EState) : Decidable (spawnInv st) := by
  unfold spawnInv; infer_instance

/-- A normalized one-cell base state used by concrete scenarios. -/
def baseState : EState :=
  { map := [some [some 0]], spawnPos := ⟨0, 0⟩, cellLen := 10, cursorRadius := 1,
    celldata := [], selectedCell := 1, leftPressed := false, rightPressed := false,
    clientX := 0, clientY := 0 }

/-- A normalized two-by-two base state used by concrete scenarios. -/
def baseState2 : EState :=
  { baseState with map := [some [some 0, some 1], some [some 2, some 0]] }

/-- The grid of the spec scenario for normalization:
`[[1,1],[2,0]]` with spawn `{x:0, y:0}`. -/
def exampleGrid : EState :=
  { baseState with map := [some [some 1, some 1], some [some 2, some 0]] }

/-- The `GRASS` cell definition (type code 1). -/
def grassDef : CellDef := ⟨1, 0xadf7b6, false⟩

/-- The `AIR` cell definition (type code 0). -/
def airDef : CellDef := ⟨0, 0xa0ced9, false⟩

section JsArrLemmas

variable {α : Type}

theorem jsGet_of_neg {l : JsArr α} {i : Int} (h : i < 0) : jsGet l i = none := by
  unfold jsGet
  rw [if_neg (by omega)]

theorem jsGet_nonneg {l : JsArr α} {i : Int} {v : α} (h : jsGet l i = some v) :
    0 ≤ i := by
  by_contra hc
  rw [jsGet_of_neg (by omega)] at h
  exact Option.noConfusion h

theorem jsGet_eq_some_iff {l : JsArr α} {i : Int} {v : α} :
    jsGet l i = some v ↔ 0 ≤ i ∧ l[i.toNat]? = some (some v) := by
  unfold jsGet
  split
  · rename_i h
    rw [List.getD_eq_getElem?_getD]
    cases hc : l[i.toNat]? with
    | none => simp [h]
    | some o => cases o <;> simp [h]
  · rename_i h
    simp [h]

theorem jsGet_lt_length {l : JsArr α} {i : Int} {v : α} (h : jsGet l i = some v) :
    i.toNat < l.length := by
  obtain ⟨-, h2⟩ := jsGet_eq_some_iff.mp h
  exact (List.getElem?_eq_some.mp h2).1

theorem jsGet_jsSet_self (l : JsArr α) {i : Int} (hi : 0 ≤ i) (v : α) :
    jsGet (jsSet l i v) i = some v := by
  rw [jsGet_eq_some_iff]
  refine ⟨hi, ?_⟩
  unfold jsSet
  rw [if_pos hi]
  by_cases hlen : i.toNat < l.length
  · rw [if_pos hlen, List.getElem?_set_self (by simpa using hlen)]
  · rw [if_neg hlen]
    rw [List.append_assoc, List.getElem?_append_right (by omega)]
    have h1 : i.toNat - l.length =
        (List.replicate (i.toNat - l.length) (none : Option α)).length := by simp
    nth_rewrite 2 [h1]
    rw [List.getElem?_concat_length]

theorem jsGet_jsSet_ne (l : JsArr α) {i j : Int} (hne : i ≠ j) (v : α) :
    jsGet (jsSet l i v) j = jsGet l j := by
  by_cases hj : 0 ≤ j
  · by_cases hi : 0 ≤ i
    · have hij : i.toNat ≠ j.toNat := by omega
      unfold jsSet jsGet
      rw [if_pos hi, if_pos hj, if_pos hj, List.getD_eq_getElem?_getD,
        List.getD_eq_getElem?_getD]
      by_cases hlen : i.toNat < l.length
      · rw [if_pos hlen, List.getElem?_set_ne hij]
      · rw [if_neg hlen, List.append_assoc]
        by_cases hjl : j.toNat < l.length
        · rw [List.getElem?_append_left hjl]
        · have hrhs : l[j.toNat]? = none := List.getElem?_eq_none_iff.mpr (by omega)
          rw [hrhs, List.getElem?_append_right (by omega)]
          by_cases hro : j.toNat - l.length < i.toNat - l.length
          · rw [List.getElem?_append_left (by simpa using hro),
              List.getElem?_replicate_of_lt hro]
            simp
          · have hnone : (List.replicate (i.toNat - l.length) none ++
                [some v] : JsArr α)[j.toNat - l.length]? = none := by
              apply List.getElem?_eq_none_iff.mpr
              simp
              omega
            rw [hnone]
    · unfold jsSet
      rw [if_neg hi]
  · rw [jsGet_of_neg (by omega), jsGet_of_neg (by omega)]

theorem jsSet_eq_self {l : JsArr α} {i : Int} {v : α} (h : jsGet l i = some v) :
    jsSet l i v = l := by
  obtain ⟨hi, h2⟩ := jsGet_eq_some_iff.mp h
  have hlen : i.toNat < l.length := (List.getElem?_eq_some.mp h2).1
  unfold jsSet
  rw [if_pos hi, if_pos hlen]
  apply List.ext_getElem?
  intro n
  by_cases hn : n = i.toNat
  · subst hn
    rw [List.getElem?_set_self hlen, h2]
  · rw [List.getElem?_set_ne (fun hh => hn hh.symm)]

theorem jsSet_length_of_lt {l : JsArr α} {i : Int} (hi : 0 ≤ i)
    (hlen : i.toNat < l.length) (v : α) : (jsSet l i v).length = l.length := by
  unfold jsSet
  rw [if_pos hi, if_pos hlen, List.length_set]

theorem mem_jsSet_of_lt {l : JsArr α} {i : Int} (hi : 0 ≤ i)
    (hlen : i.toNat < l.length) (v : α) :
    ∀ r ∈ jsSet l i v, r ∈ l ∨ r = some v := by
  unfold jsSet
  rw [if_pos hi, if_pos hlen]
  intro r hr
  exact List.mem_or_eq_of_mem_set hr

end JsArrLemmas

theorem map_eq_self_of_forall {α : Type} (l : List α) (f : α → α)
    (h : ∀ x ∈ l, f x = x) : l.map f = l := by
  induction l with
  | nil => rfl
  | cons a t ih =>
      simp only [List.map_cons, h a (by simp), List.cons.injEq, true_and]
      exact ih (fun x hx => h x (by simp [hx]))

theorem pixelToCell_eq_tdiv (x L : Int) (h : L ≠ 0) :
    pixelToCell x L = Int.tdiv x L := by
  unfold pixelToCell
  have h1 : x - Int.tmod x L = L * Int.tdiv x L := by
    have h2 := Int.tdiv_add_tmod x L
    omega
  rw [h1, Int.mul_tdiv_cancel_left _ h]

theorem pixelToCell_mul (c L : Int) (h : L ≠ 0) : pixelToCell (c * L) L = c := by
  rw [pixelToCell_eq_tdiv _ _ h, mul_comm, Int.mul_tdiv_cancel_left _ h]

/-- C7, counterexample: the claim says the pixel-to-cell conversion of a
single-cell placement maps pixel `x = -5` with cell size `L = 10` to
column `-1` (flooring toward negative infinity); the code maps it to
column `0`. -/
theorem pixelToCell_neg_counterexample :
    pixelToCell (-5) 10 = 0 ∧ pixelToCell (-5) 10 ≠ -1 := by decide

/-- C7, amended: the pixel-to-cell conversion performed by a single-cell
placement (`x -= x % cellLen; x / cellLen` in `fillCell`) maps pixel
coordinate `x` to grid column `trunc(x / L)`, JavaScript division
truncating toward zero — so `x = -5` with `L = 10` maps to column `0`,
not column `-1`. -/
theorem pixelToCell_truncates (x L : Int) (h : L ≠ 0) :
    pixelToCell x L = Int.tdiv x L :=
  pixelToCell_eq_tdiv x L h

/-- Witness for `pixelToCell_truncates` at `x = -5`, `L = 10`. -/
theorem pixelToCell_truncates_witness :
    (10 : Int) ≠ 0 ∧ pixelToCell (-5) 10 = Int.tdiv (-5) 10 :=
  ⟨by decide, pixelToCell_truncates (-5) 10 (by decide)⟩

/-- C9: `setCursorRadius(r)` with `r < 0` or `r > 20` is a no-op (the
whole state, in particular the cursor radius, keeps its prior value);
for `r` in `[0, 20]` the call updates the radius to `r` and changes
nothing else. -/
theorem setCursorRadius_spec (st : EState) (r : Int) :
    ((r < 0 ∨ 20 < r) → setCursorRadius st r = st) ∧
    (0 ≤ r → r ≤ 20 → setCursorRadius st r = { st with cursorRadius := r }) := by
  constructor
  · intro h
    unfold setCursorRadius
    rw [if_pos (by omega)]
  · intro h1 h2
    unfold setCursorRadius updateCursorPos
    rw [if_neg (by omega)]

/-- Witness for `setCursorRadius_spec`: `setCursorRadius(25)` on a state
with prior radius `1` is rejected, and `setCursorRadius(5)` updates. -/
theorem setCursorRadius_spec_witness :
    setCursorRadius baseState 25 = baseState ∧
    setCursorRadius baseState 5 = { baseState with cursorRadius := 5 } :=
  ⟨(setCursorRadius_spec baseState 25).1 (Or.inr (by decide)),
   (setCursorRadius_spec baseState 5).2 (by decide) (by decide)⟩

/-- C10: `updateCursorPos(newX, newY)` stores the new pointer position
only when both arguments are supplied and nonzero; when either argument
is `0` (or missing) the stored pointer position is unchanged, because
`if (newX && newY)` treats `0` as falsy. -/
theorem updateCursorPos_spec (st : EState) (nx ny : Int) :
    updateCursorPos st (some 0) (some ny) = st ∧
    updateCursorPos st (some nx) (some 0) = st ∧
    updateCursorPos st none (some ny) = st ∧
    updateCursorPos st (some nx) none = st ∧
    (nx ≠ 0 → ny ≠ 0 →
      updateCursorPos st (some nx) (some ny) = { st with clientX := nx, clientY := ny }) := by
  refine ⟨?_, ?_, rfl, rfl, ?_⟩
  · unfold updateCursorPos
    simp
  · unfold updateCursorPos
    simp
  · intro h1 h2
    simp [updateCursorPos, h1, h2]

/-- Witness for `updateCursorPos_spec` at the top-left pixel edge. -/
theorem updateCursorPos_spec_witness :
    updateCursorPos baseState (some 0) (some 7) = baseState ∧
    updateCursorPos baseState (some 3) (some 7) =
      { baseState with clientX := 3, clientY := 7 } :=
  ⟨(updateCursorPos_spec baseState 3 7).1,
   (updateCursorPos_spec baseState 3 7).2.2.2.2 (by decide) (by decide)⟩

/-- C8: `setSpawnPos` to a coordinate outside `[0, width) × [0, height)`
(width the length of row 0, height the number of rows) is a silent
no-op: no error is raised and the state — spawn position and every grid
cell — is returned unchanged. -/
theorem setSpawnPos_out_of_bounds (st : EState) (p : Vector) (row0 : Row)
    (h0 : jsGet st.map 0 = some row0)
    (hout : p.x < 0 ∨ p.y < 0 ∨ (row0.length : Int) ≤ p.x ∨
      (st.map.length : Int) ≤ p.y) :
    setSpawnPos st p = (st, false) := by
  unfold setSpawnPos
  by_cases hx : p.x < 0
  · rw [if_pos hx]
  · rw [if_neg hx]
    by_cases hy : p.y < 0
    · rw [if_pos hy]
    · rw [if_neg hy]
      simp only [h0]
      rcases hout with h | h | h | h
      · omega
      · omega
      · rw [if_pos (Or.inl h)]
      · rw [if_pos (Or.inr h)]

/-- Witness for `setSpawnPos_out_of_bounds` on the two-by-two grid. -/
theorem setSpawnPos_out_of_bounds_witness :
    setSpawnPos baseState2 ⟨2, 0⟩ = (baseState2, false) :=
  setSpawnPos_out_of_bounds baseState2 ⟨2, 0⟩ [some 0, some 1] (by decide)
    (by decide)

/-- C3 names a behavior the code was clearly meant to have (the
`redrawCanvas` flag and row materialization of `fillCell` exist only to
serve implicit grid growth, and the previous revision of the same
method implements it) but the current code does not: `fillCell` at any
coordinate outside the current extent throws a `TypeError` at
`CELL_DEFNS[row[x / this.cellLen]].celldata` (reading a property of
`CELL_DEFNS[undefined]`, i.e. of `undefined`) before the write, so the
type code is never stored and the full repaint is never triggered.  On
the failing input — grid `[[0]]`, cell size 10, placing GRASS at pixel
`(0, 10)`, i.e. the missing row 1 — the call throws with the row
materialized as `[]` but the cell not written. -/
theorem fillCell_growth_throws :
    (fillCell (defnsOfList CELL_DEFNS) baseState 0 10 grassDef).2 = true ∧
    (fillCell (defnsOfList CELL_DEFNS) baseState 0 10 grassDef).1.map =
      [some [some 0], some []] ∧
    readCell (fillCell (defnsOfList CELL_DEFNS) baseState 0 10 grassDef).1.map 1 0 =
      none ∧
    (fillCell (defnsOfList CELL_DEFNS) baseState 10 0 grassDef).2 = true ∧
    (fillCell (defnsOfList CELL_DEFNS) baseState 10 0 grassDef).1 = baseState := by
  decide

section FormatMapLemmas

theorem foldl_rowmax_le (m : Grid) : ∀ acc : Nat,
    acc ≤ m.foldl (fun a r => match r with | some row => max a row.length | none => a) acc := by
  induction m with
  | nil => intro acc; simp
  | cons r t ih =>
      intro acc
      simp only [List.foldl_cons]
      refine le_trans ?_ (ih _)
      cases r <;> simp

theorem length_le_foldl_rowmax {row : Row} (m : Grid) : ∀ acc : Nat, some row ∈ m →
    row.length ≤ m.foldl (fun a r => match r with | some row => max a row.length | none => a) acc := by
  induction m with
  | nil => intro acc h; exact absurd h (List.not_mem_nil _)
  | cons r t ih =>
      intro acc h
      simp only [List.foldl_cons]
      rcases List.mem_cons.mp h with h1 | h1
      · rw [← h1]
        refine le_trans ?_ (foldl_rowmax_le t _)
        simp
      · exact ih _ h1

theorem mem_length_le_maxRowLen {m : Grid} {row : Row} (h : some row ∈ m) :
    row.length ≤ maxRowLen m :=
  length_le_foldl_rowmax m 0 h

theorem formatRow_length {maxLen : Nat} {r : Option Row}
    (h : (r.getD []).length ≤ maxLen) : (formatRow maxLen r).length = maxLen := by
  unfold formatRow
  simp only [List.length_append, List.length_replicate, List.length_map]
  omega

theorem formatRow_all_isSome {maxLen : Nat} {r : Option Row} :
    ∀ c ∈ formatRow maxLen r, c.isSome := by
  unfold formatRow
  intro c hc
  rcases List.mem_append.mp hc with h | h
  · obtain ⟨a, -, rfl⟩ := List.mem_map.mp h
    rfl
  · rw [List.eq_of_mem_replicate h]
    rfl

theorem getD_length_le_maxRowLen {m : Grid} {o : Option Row} (h : o ∈ m) :
    (o.getD []).length ≤ maxRowLen m := by
  cases o with
  | none => simp [maxRowLen, foldl_rowmax_le m 0]
  | some row => exact mem_length_le_maxRowLen h

theorem jsGet_formatMapCore {m : Grid} {y : Int} (hy0 : 0 ≤ y)
    (hy : y.toNat < m.length) :
    ∃ o, m[y.toNat]? = some o ∧
      jsGet (formatMapCore m) y = some (formatRow (maxRowLen m) o) := by
  refine ⟨m[y.toNat], List.getElem?_eq_getElem hy, ?_⟩
  rw [jsGet_eq_some_iff]
  refine ⟨hy0, ?_⟩
  unfold formatMapCore
  rw [List.getElem?_map, List.getElem?_eq_getElem hy]
  rfl

theorem formatMap_fields (st : EState) :
    (formatMap st).1.spawnPos = st.spawnPos ∧ (formatMap st).1.cellLen = st.cellLen ∧
    (formatMap st).1.cursorRadius = st.cursorRadius ∧
    (formatMap st).1.celldata = st.celldata ∧
    (formatMap st).1.clientX = st.clientX ∧ (formatMap st).1.clientY = st.clientY := by
  unfold formatMap
  cases hj : jsGet (formatMapCore st.map) st.spawnPos.y <;> simp [hj]

theorem formatMap_map_eq (st : EState) (hy0 : 0 ≤ st.spawnPos.y)
    (hylt : st.spawnPos.y.toNat < st.map.length) :
    ∃ o, st.map[st.spawnPos.y.toNat]? = some o ∧
      (formatMap st).2 = false ∧
      (formatMap st).1.map =
        jsSet (formatMapCore st.map) st.spawnPos.y
          (jsSet (formatRow (maxRowLen st.map) o) st.spawnPos.x 0) := by
  obtain ⟨o, ho, hget⟩ := jsGet_formatMapCore hy0 hylt
  refine ⟨o, ho, ?_⟩
  unfold formatMap
  simp [hget]

theorem formatMapCore_length (m : Grid) : (formatMapCore m).length = m.length := by
  unfold formatMapCore
  exact List.length_map m _

theorem formatMap_result_length (st : EState) (hy0 : 0 ≤ st.spawnPos.y)
    (hylt : st.spawnPos.y.toNat < st.map.length) :
    (formatMap st).1.map.length = st.map.length := by
  obtain ⟨o, ho, -, hmap⟩ := formatMap_map_eq st hy0 hylt
  rw [hmap, jsSet_length_of_lt hy0 (by rw [formatMapCore_length]; exact hylt),
    formatMapCore_length]

theorem formatMap_result_rows (st : EState) (hy0 : 0 ≤ st.spawnPos.y)
    (hylt : st.spawnPos.y.toNat < st.map.length) (hx0 : 0 ≤ st.spawnPos.x)
    (hxlt : st.spawnPos.x.toNat < maxRowLen st.map) :
    ∀ r ∈ (formatMap st).1.map, ∃ row, r = some row ∧
      row.length = maxRowLen st.map ∧ ∀ c ∈ row, c.isSome := by
  obtain ⟨o, ho, -, hmap⟩ := formatMap_map_eq st hy0 hylt
  have homem : o ∈ st.map := List.getElem?_mem ho
  have hrowlen : (formatRow (maxRowLen st.map) o).length = maxRowLen st.map :=
    formatRow_length (getD_length_le_maxRowLen homem)
  intro r hr
  rw [hmap] at hr
  have hsplit := mem_jsSet_of_lt hy0
    (by rw [formatMapCore_length]; exact hylt) _ r hr
  rcases hsplit with h | h
  · unfold formatMapCore at h
    obtain ⟨o', ho', rfl⟩ := List.mem_map.mp h
    exact ⟨_, rfl, formatRow_length (getD_length_le_maxRowLen ho'),
      formatRow_all_isSome⟩
  · subst h
    refine ⟨_, rfl, ?_, ?_⟩
    · rw [jsSet_length_of_lt hx0 (by rw [hrowlen]; exact hxlt), hrowlen]
    · intro c hc
      rcases mem_jsSet_of_lt hx0 (by rw [hrowlen]; exact hxlt) _ c hc with h2 | h2
      · exact formatRow_all_isSome c h2
      · rw [h2]
        rfl

theorem formatMap_spawn_cell (st : EState) (hy0 : 0 ≤ st.spawnPos.y)
    (hylt : st.spawnPos.y.toNat < st.map.length) (hx0 : 0 ≤ st.spawnPos.x) :
    readCell (formatMap st).1.map st.spawnPos.y st.spawnPos.x = some 0 := by
  obtain ⟨o, ho, -, hmap⟩ := formatMap_map_eq st hy0 hylt
  unfold readCell
  rw [hmap, jsGet_jsSet_self _ hy0]
  show jsGet (jsSet (formatRow (maxRowLen st.map) o) st.spawnPos.x 0)
    st.spawnPos.x = some 0
  exact jsGet_jsSet_self _ hx0 0

end FormatMapLemmas

/-- C1: for every grid whose spawn position lies within the grid's
bounds, one call of `formatMap` succeeds (no throw) and afterwards every
row is present with the same length — the maximum row length over all
rows at the start of the call — no cell is undefined, and the cell at
the spawn position holds the empty code `0`; in particular normalizing
`[[1,1],[2,0]]` with spawn `{x:0, y:0}` yields `[[0,1],[2,0]]`. -/
theorem formatMap_normalizes :
    (∀ st : EState, 0 ≤ st.spawnPos.y → st.spawnPos.y < (st.map.length : Int) →
      0 ≤ st.spawnPos.x → st.spawnPos.x < (maxRowLen st.map : Int) →
      (formatMap st).2 = false ∧
      (formatMap st).1.map.length = st.map.length ∧
      (∀ r ∈ (formatMap st).1.map, ∃ row, r = some row ∧
        row.length = maxRowLen st.map ∧ ∀ c ∈ row, c.isSome) ∧
      readCell (formatMap st).1.map st.spawnPos.y st.spawnPos.x = some 0) ∧
    (formatMap exampleGrid).1.map = [some [some 0, some 1], some [some 2, some 0]] ∧
    (formatMap exampleGrid).2 = false := by
  refine ⟨?_, by decide, by decide⟩
  intro st hy0 hylt hx0 hxlt
  have hy : st.spawnPos.y.toNat < st.map.length := by omega
  have hx : st.spawnPos.x.toNat < maxRowLen st.map := by omega
  obtain ⟨o, ho, hf, -⟩ := formatMap_map_eq st hy0 hy
  exact ⟨hf, formatMap_result_length st hy0 hy,
    formatMap_result_rows st hy0 hy hx0 hx,
    formatMap_spawn_cell st hy0 hy hx0⟩

/-- Witness for `formatMap_normalizes` on the two-by-two grid of the
spec scenario. -/
theorem formatMap_normalizes_witness :
    (formatMap exampleGrid).2 = false ∧
    readCell (formatMap exampleGrid).1.map 0 0 = some 0 :=
  ⟨(formatMap_normalizes.1 exampleGrid (by decide) (by decide) (by decide)
      (by decide)).1,
   (formatMap_normalizes.1 exampleGrid (by decide) (by decide) (by decide)
      (by decide)).2.2.2⟩

section IdempotenceLemmas

theorem foldl_rowmax_uniform {M : Nat} : ∀ (m : Grid) (acc : Nat),
    (∀ r ∈ m, ∃ row, r = some row ∧ row.length = M) → m ≠ [] →
    m.foldl (fun a r => match r with | some row => max a row.length | none => a) acc
      = max acc M := by
  intro m
  induction m with
  | nil => intro acc h hm; exact absurd rfl hm
  | cons r t ih =>
      intro acc h hm
      obtain ⟨row, rfl, hlen⟩ := h r (by simp)
      simp only [List.foldl_cons, hlen]
      by_cases ht : t = []
      · subst ht
        simp
      · rw [ih (max acc M) (fun x hx => h x (by simp [hx])) ht]
        rw [max_assoc, max_self]

theorem maxRowLen_uniform {M : Nat} {m : Grid}
    (h : ∀ r ∈ m, ∃ row, r = some row ∧ row.length = M) (hm : m ≠ []) :
    maxRowLen m = M := by
  unfold maxRowLen
  rw [foldl_rowmax_uniform m 0 h hm]
  simp

theorem formatRow_of_normalized {M : Nat} {row : Row} (hlen : row.length = M)
    (hsome : ∀ c ∈ row, c.isSome) : formatRow M (some row) = row := by
  unfold formatRow
  simp only [Option.getD_some]
  have hbase : row.map (fun c => some (c.getD 0)) = row := by
    apply map_eq_self_of_forall
    intro c hc
    obtain ⟨a, rfl⟩ := Option.isSome_iff_exists.mp (hsome c hc)
    rfl
  rw [hbase, hlen]
  simp

theorem formatMapCore_of_normalized {M : Nat} {m : Grid}
    (h : ∀ r ∈ m, ∃ row, r = some row ∧ row.length = M ∧ ∀ c ∈ row, c.isSome)
    (hm : m ≠ []) : formatMapCore m = m := by
  unfold formatMapCore
  rw [maxRowLen_uniform (fun r hr => by
    obtain ⟨row, hrow, hlen, -⟩ := h r hr
    exact ⟨row, hrow, hlen⟩) hm]
  apply map_eq_self_of_forall
  intro r hr
  obtain ⟨row, rfl, hlen, hsome⟩ := h r hr
  rw [formatRow_of_normalized hlen hsome]

theorem readCell_eq_some {m : Grid} {y x v : Int} (h : readCell m y x = some v) :
    ∃ row, jsGet m y = some row ∧ jsGet row x = some v := by
  unfold readCell at h
  cases hrow : jsGet m y with
  | none => rw [hrow] at h; exact Option.noConfusion h
  | some row => rw [hrow] at h; exact ⟨row, rfl, h⟩

end IdempotenceLemmas

/-- C5: `formatMap` is idempotent — for every grid whose spawn position
lies within bounds, running it a second time throws nothing and returns
exactly the state produced by the first run. -/
theorem formatMap_idempotent (st : EState) (hy0 : 0 ≤ st.spawnPos.y)
    (hylt : st.spawnPos.y < (st.map.length : Int)) (hx0 : 0 ≤ st.spawnPos.x)
    (hxlt : st.spawnPos.x < (maxRowLen st.map : Int)) :
    formatMap ((formatMap st).1) = ((formatMap st).1, false) := by
  have hy : st.spawnPos.y.toNat < st.map.length := by omega
  have hx : st.spawnPos.x.toNat < maxRowLen st.map := by omega
  set st1 := (formatMap st).1 with hst1
  have hfields := formatMap_fields st
  have hsp : st1.spawnPos = st.spawnPos := hfields.1
  have hlen1 : st1.map.length = st.map.length := formatMap_result_length st hy0 hy
  have hrows : ∀ r ∈ st1.map, ∃ row, r = some row ∧
      row.length = maxRowLen st.map ∧ ∀ c ∈ row, c.isSome :=
    formatMap_result_rows st hy0 hy hx0 hx
  have hcell : readCell st1.map st.spawnPos.y st.spawnPos.x = some 0 :=
    formatMap_spawn_cell st hy0 hy hx0
  have hne : st1.map ≠ [] := by
    intro hc
    rw [hc] at hlen1
    simp at hlen1
    omega
  have hcore : formatMapCore st1.map = st1.map :=
    formatMapCore_of_normalized hrows hne
  obtain ⟨rowY, hrowY, hcellY⟩ := readCell_eq_some hcell
  have hrowY2 : jsGet st1.map st1.spawnPos.y = some rowY := by rw [hsp]; exact hrowY
  have hcellY2 : jsGet rowY st1.spawnPos.x = some 0 := by rw [hsp]; exact hcellY
  unfold formatMap
  rw [hcore]
  simp only [hrowY2, jsSet_eq_self hcellY2, jsSet_eq_self hrowY2]

/-- Witness for `formatMap_idempotent` on the spec's example grid. -/
theorem formatMap_idempotent_witness :
    formatMap ((formatMap exampleGrid).1) = ((formatMap exampleGrid).1, false) :=
  formatMap_idempotent exampleGrid (by decide) (by decide) (by decide) (by decide)

/-- C4: saving runs `formatMap` and serializes
`{data: this.map, spawnPosition: this.spawnPos}`; deserializing that
payload the way the constructor does (`this.map = JSON.data`,
`this.spawnPos = JSON.spawnPosition`) yields a grid equal to the
normalized grid `normalize(G)` and the same spawn coordinate. -/
theorem save_load_roundtrip (st : EState) (cd : List (Int × Int))
    (hy0 : 0 ≤ st.spawnPos.y) (hylt : st.spawnPos.y < (st.map.length : Int)) :
    savePayload st = some ((formatMap st).1.map, st.spawnPos) ∧
    (loadFromPayload cd ((formatMap st).1.map, st.spawnPos)).map =
      (formatMap st).1.map ∧
    (loadFromPayload cd ((formatMap st).1.map, st.spawnPos)).spawnPos =
      st.spawnPos := by
  have hy : st.spawnPos.y.toNat < st.map.length := by omega
  obtain ⟨o, ho, hf, -⟩ := formatMap_map_eq st hy0 hy
  have hsp : (formatMap st).1.spawnPos = st.spawnPos := (formatMap_fields st).1
  refine ⟨?_, rfl, rfl⟩
  unfold savePayload
  cases hm : formatMap st with
  | mk fst snd =>
      rw [hm] at hf hsp
      simp only at hf hsp
      subst hf
      simp [← hsp, hm]

/-- Witness for `save_load_roundtrip` on the spec's example grid. -/
theorem save_load_roundtrip_witness :
    savePayload exampleGrid = some ((formatMap exampleGrid).1.map,
      exampleGrid.spawnPos) :=
  (save_load_roundtrip exampleGrid [] (by decide) (by decide)).1

section CelldataLemmas

theorem count_deleteCelldata (s : List (Int × Int)) (k : Int × Int) :
    List.count k (deleteCelldata s k) = 0 := by
  apply List.count_eq_zero.mpr
  intro hmem
  unfold deleteCelldata at hmem
  have h2 := (List.mem_filter.mp hmem).2
  simp at h2

theorem count_assignCelldata {s : List (Int × Int)} {k : Int × Int}
    (h : List.count k s ≤ 1) : List.count k (assignCelldata s k) = 1 := by
  unfold assignCelldata
  by_cases hm : k ∈ s
  · rw [if_pos hm]
    have h1 := List.one_le_count_iff.mpr hm
    omega
  · rw [if_neg hm]
    simp [List.count_append, List.count_eq_zero.mpr hm]

/-- Characterization of a non-throwing `fillCell` call: when the target
row exists, the stored value at the target column is defined and has a
registry entry, the call writes `cell.type` at the cell, deletes the old
aux entry when the old type requires aux data (delete first), then
creates a fresh entry when the new type does (create second). -/
theorem fillCell_write (defns : CellRegistry) (st : EState) (x y : Int)
    (cell : CellDef) {row : Row} {v : Int} {dOld : CellDef}
    (hrow : jsGet st.map (pixelToCell y st.cellLen) = some row)
    (hv : jsGet row (pixelToCell x st.cellLen) = some v)
    (hd : defns v = some dOld) :
    fillCell defns st x y cell =
      ({ st with
          map := jsSet st.map (pixelToCell y st.cellLen)
            (jsSet row (pixelToCell x st.cellLen) cell.type),
          celldata :=
            (if cell.celldata then
              assignCelldata
                (if dOld.celldata then
                  deleteCelldata st.celldata
                    (pixelToCell x st.cellLen, pixelToCell y st.cellLen)
                 else st.celldata)
                (pixelToCell x st.cellLen, pixelToCell y st.cellLen)
             else if dOld.celldata then
              deleteCelldata st.celldata
                (pixelToCell x st.cellLen, pixelToCell y st.cellLen)
             else st.celldata) }, false) := by
  unfold fillCell
  simp only [hrow, hv, hd]

end CelldataLemmas

/-- C6: the aux-data lifecycle at a single in-bounds coordinate
`C = (cx, cy)` holding a registry-known code, for any registry: placing
a type `A` with `requiresAuxData = true` leaves exactly one aux entry
keyed by `C`; then placing a non-aux type `N` at `C` removes it (zero
entries); placing instead a second aux-requiring type `B` at `C` still
leaves exactly one (fresh default) entry, never zero or two, because the
deletion of the old entry precedes the creation of the new one. -/
theorem celldata_lifecycle (defns : CellRegistry) (st : EState) (cx cy : Int)
    (A N B dOld : CellDef) (row : Row) (v0 : Int)
    (hL : st.cellLen ≠ 0)
    (hrow : jsGet st.map cy = some row) (hv : jsGet row cx = some v0)
    (hd0 : defns v0 = some dOld)
    (hA : defns A.type = some A) (hAc : A.celldata = true)
    (hNc : N.celldata = false) (hBc : B.celldata = true)
    (hcnt : List.count (cx, cy) st.celldata ≤ 1) :
    (fillCell defns st (cx * st.cellLen) (cy * st.cellLen) A).2 = false ∧
    List.count (cx, cy)
      (fillCell defns st (cx * st.cellLen) (cy * st.cellLen) A).1.celldata = 1 ∧
    (fillCell defns (fillCell defns st (cx * st.cellLen) (cy * st.cellLen) A).1
        (cx * st.cellLen) (cy * st.cellLen) N).2 = false ∧
    List.count (cx, cy)
      (fillCell defns (fillCell defns st (cx * st.cellLen) (cy * st.cellLen) A).1
        (cx * st.cellLen) (cy * st.cellLen) N).1.celldata = 0 ∧
    (fillCell defns (fillCell defns st (cx * st.cellLen) (cy * st.cellLen) A).1
        (cx * st.cellLen) (cy * st.cellLen) B).2 = false ∧
    List.count (cx, cy)
      (fillCell defns (fillCell defns st (cx * st.cellLen) (cy * st.cellLen) A).1
        (cx * st.cellLen) (cy * st.cellLen) B).1.celldata = 1 := by
  have hcx0 : 0 ≤ cx := jsGet_nonneg hv
  have hcy0 : 0 ≤ cy := jsGet_nonneg hrow
  have hpx : pixelToCell (cx * st.cellLen) st.cellLen = cx := pixelToCell_mul cx _ hL
  have hpy : pixelToCell (cy * st.cellLen) st.cellLen = cy := pixelToCell_mul cy _ hL
  have hrow1 : jsGet st.map (pixelToCell (cy * st.cellLen) st.cellLen) = some row := by
    rw [hpy]; exact hrow
  have hv1 : jsGet row (pixelToCell (cx * st.cellLen) st.cellLen) = some v0 := by
    rw [hpx]; exact hv
  have hstep1 := fillCell_write defns st (cx * st.cellLen) (cy * st.cellLen) A
    hrow1 hv1 hd0
  set st1 := (fillCell defns st (cx * st.cellLen) (cy * st.cellLen) A).1 with hst1
  have hst1eq : st1 = { st with
      map := jsSet st.map cy (jsSet row cx A.type),
      celldata := assignCelldata
        (if dOld.celldata then deleteCelldata st.celldata (cx, cy) else st.celldata)
        (cx, cy) } := by
    rw [hst1, hstep1]
    simp only [hpx, hpy, hAc, if_true]
  have hcnt1 : List.count (cx, cy) st1.celldata = 1 := by
    rw [hst1eq]
    by_cases hdo : dOld.celldata
    · simp only [hdo, if_true]
      exact count_assignCelldata (by rw [count_deleteCelldata]; omega)
    · simp only [hdo, if_false]
      exact count_assignCelldata hcnt
  have hlen1 : st1.cellLen = st.cellLen := by rw [hst1eq]
  have hrowA : jsGet st1.map (pixelToCell (cy * st.cellLen) st1.cellLen) =
      some (jsSet row cx A.type) := by
    rw [hlen1, hpy, hst1eq]
    exact jsGet_jsSet_self _ hcy0 _
  have hvA : jsGet (jsSet row cx A.type)
      (pixelToCell (cx * st.cellLen) st1.cellLen) = some A.type := by
    rw [hlen1, hpx]
    exact jsGet_jsSet_self _ hcx0 _
  have hstep2 := fillCell_write defns st1 (cx * st.cellLen) (cy * st.cellLen) N
    hrowA hvA hA
  have hstep3 := fillCell_write defns st1 (cx * st.cellLen) (cy * st.cellLen) B
    hrowA hvA hA
  refine ⟨by rw [hstep1], hcnt1, by rw [hstep2], ?_, by rw [hstep3], ?_⟩
  · rw [hstep2]
    simp only [hlen1, hpx, hpy, hNc, hAc, if_true, if_false]
    exact count_deleteCelldata _ _
  · rw [hstep3]
    simp only [hlen1, hpx, hpy, hBc, hAc, if_true]
    exact count_assignCelldata (by rw [count_deleteCelldata]; omega)

/-- Witness for `celldata_lifecycle`: a registry in which codes 5 and 6
require aux data and code 0 does not, on a one-cell grid. -/
theorem celldata_lifecycle_witness :
    List.count ((0 : Int), (0 : Int))
      (fillCell (fun i => if i = 5 then some ⟨5, 1, true⟩
          else if i = 6 then some ⟨6, 2, true⟩
          else if i = 0 then some ⟨0, 3, false⟩ else none)
        baseState 0 0 ⟨5, 1, true⟩).1.celldata = 1 :=
  (celldata_lifecycle
    (fun i => if i = 5 then some ⟨5, 1, true⟩
      else if i = 6 then some ⟨6, 2, true⟩
      else if i = 0 then some ⟨0, 3, false⟩ else none)
    baseState 0 0 ⟨5, 1, true⟩ ⟨0, 3, false⟩ ⟨6, 2, true⟩ ⟨0, 3, false⟩
    [some 0] 0 (by decide) (by decide) (by decide) (by decide) (by decide)
    (by decide) (by decide) (by decide) (by decide)).2.1

/-- C2, counterexample: from the normalized initial state with grid
`[[0]]` and spawn `{x:0, y:0}` (a fixed point of `formatMap`), a single
public operation — `fillCell` at pixel `(0, 0)`, which maps to the
spawn cell — overwrites the spawn cell with the nonzero GRASS code, so
the grid value under the spawn marker is no longer the empty code. -/
theorem spawn_overwritten_by_fillCell :
    formatMap baseState = (baseState, false) ∧
    (fillCell (defnsOfList CELL_DEFNS) baseState 0 0 grassDef).2 = false ∧
    (fillCell (defnsOfList CELL_DEFNS) baseState 0 0 grassDef).1.map =
      [some [some 1]] ∧
    ¬ spawnInv (fillCell (defnsOfList CELL_DEFNS) baseState 0 0 grassDef).1 := by
  decide

section SpawnInvLemmas

theorem readCell_jsSet_row_ne {m : Grid} {i j : Int} (hne : i ≠ j) (r : Row)
    (x : Int) : readCell (jsSet m i r) j x = readCell m j x := by
  unfold readCell
  rw [jsGet_jsSet_ne _ hne]

theorem readCell_jsSet_row_self {m : Grid} {i : Int} (hi : 0 ≤ i) (r : Row)
    (x : Int) : readCell (jsSet m i r) i x = jsGet r x := by
  unfold readCell
  rw [jsGet_jsSet_self _ hi]

theorem fillCell_fields (defns : CellRegistry) (st : EState) (x y : Int)
    (cell : CellDef) :
    (fillCell defns st x y cell).1.cellLen = st.cellLen ∧
    (fillCell defns st x y cell).1.spawnPos = st.spawnPos ∧
    (fillCell defns st x y cell).1.cursorRadius = st.cursorRadius := by
  refine ⟨?_, ?_, ?_⟩ <;> (simp only [fillCell]; repeat' split) <;> rfl

theorem fillCell_preserves_spawnInv (defns : CellRegistry) (st : EState)
    (x y : Int) (cell : CellDef) (hInv : spawnInv st)
    (h : (pixelToCell x st.cellLen ≠ st.spawnPos.x ∨
          pixelToCell y st.cellLen ≠ st.spawnPos.y) ∨ cell.type = 0) :
    spawnInv (fillCell defns st x y cell).1 := by
  obtain ⟨rowS, hrowS, hcellS⟩ := readCell_eq_some hInv
  have hsy0 : 0 ≤ st.spawnPos.y := jsGet_nonneg hrowS
  have hsx0 : 0 ≤ st.spawnPos.x := jsGet_nonneg hcellS
  cases hr : jsGet st.map (pixelToCell y st.cellLen) with
  | none =>
      have hne : pixelToCell y st.cellLen ≠ st.spawnPos.y := by
        intro hc
        rw [hc, hrowS] at hr
        exact Option.noConfusion hr
      unfold spawnInv
      simp only [fillCell, hr]
      rw [readCell_jsSet_row_ne hne]
      exact hInv
  | some row =>
      cases hv : jsGet row (pixelToCell x st.cellLen) with
      | none =>
          unfold spawnInv
          simp only [fillCell, hr, hv]
          exact hInv
      | some v =>
          cases hd : defns v with
          | none =>
              unfold spawnInv
              simp only [fillCell, hr, hv, hd]
              exact hInv
          | some dOld =>
              unfold spawnInv
              simp only [fillCell, hr, hv, hd]
              by_cases hcy : pixelToCell y st.cellLen = st.spawnPos.y
              · rw [hcy, readCell_jsSet_row_self hsy0]
                have hrow_eq : row = rowS := by
                  rw [hcy, hrowS] at hr
                  exact (Option.some.inj hr).symm
                by_cases hcx : pixelToCell x st.cellLen = st.spawnPos.x
                · have htype : cell.type = 0 := by
                    rcases h with h1 | h1
                    · rcases h1 with h1 | h1 <;> exact absurd (by assumption) h1
                    · exact h1
                  rw [hcx, jsGet_jsSet_self _ hsx0, htype]
                · rw [jsGet_jsSet_ne _ hcx, hrow_eq]
                  exact hcellS
              · rw [readCell_jsSet_row_ne hcy]
                exact hInv

theorem repaintCells_inv (defns : CellRegistry) (d0 : CellDef)
    (hd : defns 0 = some d0) (ht : d0.type = 0) (rowIdx : Nat) :
    ∀ (cols : List Nat) (st : EState), spawnInv st → 0 < st.cellLen →
      spawnInv (repaintCells defns rowIdx cols st).1 ∧
      (repaintCells defns rowIdx cols st).1.cellLen = st.cellLen := by
  intro cols
  induction cols with
  | nil => intro st h hL; exact ⟨h, rfl⟩
  | cons c rest ih =>
      intro st h hL
      cases hr : jsGet st.map (rowIdx : Int) with
      | none =>
          simp only [repaintCells, hr]
          exact ih st h hL
      | some row =>
          cases hv : jsGet row (c : Int) with
          | none =>
              simp only [repaintCells, hr, hv]
              exact ih st h hL
          | some v =>
              cases hdv : defns v with
              | none =>
                  simp only [repaintCells, hr, hv, hdv]
                  exact ⟨h, by simp⟩
              | some d =>
                  have hLne : st.cellLen ≠ 0 := by omega
                  have hinv2 : spawnInv
                      (fillCell defns st ((c : Int) * st.cellLen)
                        ((rowIdx : Int) * st.cellLen) d).1 := by
                    apply fillCell_preserves_spawnInv _ _ _ _ _ h
                    by_cases hcoord : (c : Int) = st.spawnPos.x ∧
                        (rowIdx : Int) = st.spawnPos.y
                    · right
                      have hv0 : v = 0 := by
                        have hcell : readCell st.map st.spawnPos.y st.spawnPos.x
                            = some 0 := h
                        rw [← hcoord.2, ← hcoord.1] at hcell
                        simp only [readCell, hr, hv, Option.some.injEq] at hcell
                        exact hcell
                      rw [hv0, hd] at hdv
                      rw [← Option.some.inj hdv]
                      exact ht
                    · left
                      rw [pixelToCell_mul _ _ hLne, pixelToCell_mul _ _ hLne]
                      tauto
                  have hf := fillCell_fields defns st ((c : Int) * st.cellLen)
                    ((rowIdx : Int) * st.cellLen) d
                  simp only [repaintCells, hr, hv, hdv]
                  cases hb : (fillCell defns st ((c : Int) * st.cellLen)
                      ((rowIdx : Int) * st.cellLen) d).2
                  · simp only [hb, Bool.false_eq_true, if_false]
                    obtain ⟨ha, hc2⟩ := ih _ hinv2 (by rw [hf.1]; exact hL)
                    exact ⟨ha, by rw [hc2, hf.1]⟩
                  · simp only [hb, if_true]
                    exact ⟨hinv2, hf.1⟩

theorem repaintRows_inv (defns : CellRegistry) (d0 : CellDef)
    (hd : defns 0 = some d0) (ht : d0.type = 0) :
    ∀ (rows : List Nat) (st : EState), spawnInv st → 0 < st.cellLen →
      spawnInv (repaintRows defns rows st).1 := by
  intro rows
  induction rows with
  | nil => intro st h hL; exact h
  | cons r rest ih =>
      intro st h hL
      cases hr : jsGet st.map (r : Int) with
      | none =>
          simp only [repaintRows, hr]
          exact ih st h hL
      | some row =>
          obtain ⟨h1, h2⟩ := repaintCells_inv defns d0 hd ht r
            (List.range row.length) st h hL
          simp only [repaintRows, hr]
          cases hc : repaintCells defns r (List.range row.length) st with
          | mk st1 b =>
              rw [hc] at h1 h2
              cases b
              · exact ih st1 h1 (by
                  rw [show st1.cellLen = st.cellLen from h2]
                  exact hL)
              · exact h1

theorem formatMap_inv (st : EState) (hy0 : 0 ≤ st.spawnPos.y)
    (hylt : st.spawnPos.y.toNat < st.map.length) (hx0 : 0 ≤ st.spawnPos.x) :
    (formatMap st).2 = false ∧ spawnInv (formatMap st).1 := by
  obtain ⟨o, ho, hf, hmap⟩ := formatMap_map_eq st hy0 hylt
  refine ⟨hf, ?_⟩
  have hc := formatMap_spawn_cell st hy0 hylt hx0
  unfold spawnInv
  rw [(formatMap_fields st).1]
  exact hc

theorem foldl_preserves {α : Type} {P : EState → Prop} (f : EState → α → EState)
    (hf : ∀ s a, P s → P (f s a)) : ∀ (l : List α) (s : EState),
      P s → P (l.foldl f s) := by
  intro l
  induction l with
  | nil => intro s h; exact h
  | cons a t ih => intro s h; exact ih _ (hf s a h)

end SpawnInvLemmas

/-- C2 (amended): the claim as stated fails (see the counterexample):
`fillCell`/`fillRegion` at pixel coordinates that map to the spawn cell
overwrite it with the placed type and nothing restores it until the
next normalization.  What holds is: `setSpawnPos` (whenever it returns
without throwing), `setCursorRadius`, `formatMap`, `save` and
`setCellLen` each preserve the invariant "the grid value at the current
spawn position is the empty code 0" (under in-bounds spawn coordinates
and a registry mapping code 0 to an AIR definition where needed), and
`fillCell` preserves it exactly when the target cell differs from the
spawn cell or the placed type is the empty code 0 — hence `fillRegion`
preserves it whenever the placed type is 0. -/
theorem spawn_invariant_amended (defns : CellRegistry) (st : EState)
    (d0 : CellDef) (hd : defns 0 = some d0) (ht : d0.type = 0)
    (hInv : spawnInv st) :
    (∀ p : Vector, (setSpawnPos st p).2 = false → spawnInv (setSpawnPos st p).1) ∧
    (∀ r : Int, spawnInv (setCursorRadius st r)) ∧
    (0 ≤ st.spawnPos.x → 0 ≤ st.spawnPos.y →
      st.spawnPos.y < (st.map.length : Int) → spawnInv (formatMap st).1) ∧
    (0 ≤ st.spawnPos.x → 0 ≤ st.spawnPos.y →
      st.spawnPos.y < (st.map.length : Int) → spawnInv (save st).1) ∧
    (∀ len : Int, 0 < len → 0 ≤ st.spawnPos.x → 0 ≤ st.spawnPos.y →
      st.spawnPos.y < (st.map.length : Int) →
      spawnInv (setCellLen defns st len).1) ∧
    (∀ (x y : Int) (cell : CellDef),
      ((pixelToCell x st.cellLen ≠ st.spawnPos.x ∨
        pixelToCell y st.cellLen ≠ st.spawnPos.y) ∨ cell.type = 0) →
      spawnInv (fillCell defns st x y cell).1) ∧
    (∀ (x y : Int) (cell : CellDef), cell.type = 0 →
      spawnInv (fillRegion defns st x y cell)) := by
  refine ⟨?_, ?_, ?_, ?_, ?_, ?_, ?_⟩
  · intro p hsuc
    unfold setSpawnPos at hsuc ⊢
    by_cases h1 : p.x < 0
    · simp only [if_pos h1]
      exact hInv
    · simp only [if_neg h1] at hsuc ⊢
      by_cases h2 : p.y < 0
      · simp only [if_pos h2]
        exact hInv
      · simp only [if_neg h2] at hsuc ⊢
        cases h0 : jsGet st.map 0 with
        | none =>
            rw [h0] at hsuc
            exact absurd hsuc (by simp)
        | some row0 =>
            simp only [h0] at hsuc ⊢
            by_cases h3 : (row0.length : Int) ≤ p.x ∨ (st.map.length : Int) ≤ p.y
            · simp only [if_pos h3]
              exact hInv
            · simp only [if_neg h3] at hsuc ⊢
              cases h4 : jsGet st.map p.y with
              | none =>
                  rw [h4] at hsuc
                  exact absurd hsuc (by simp)
              | some r =>
                  simp only [h4]
                  unfold spawnInv
                  simp only
                  rw [readCell_jsSet_row_self (by omega)]
                  exact jsGet_jsSet_self _ (by omega) 0
  · intro r
    unfold setCursorRadius updateCursorPos
    by_cases hc : r < 0 ∨ r > 20
    · simp only [if_pos hc]
      exact hInv
    · simp only [if_neg hc]
      exact hInv
  · intro hx0 hy0 hylt
    exact (formatMap_inv st hy0 (by omega) hx0).2
  · intro hx0 hy0 hylt
    exact (formatMap_inv st hy0 (by omega) hx0).2
  · intro len hlen hx0 hy0 hylt
    unfold setCellLen repaintCanvas
    have hfm := formatMap_inv { st with cellLen := len } hy0 (by simp; omega) hx0
    cases hc : formatMap { st with cellLen := len } with
    | mk st1 b =>
        rw [hc] at hfm
        obtain ⟨hb, hinv1⟩ := hfm
        simp only at hb hinv1
        subst hb
        simp only
        apply repaintRows_inv defns d0 hd ht _ st1 hinv1
        have := (formatMap_fields { st with cellLen := len }).2.1
        rw [hc] at this
        simp only at this
        rw [this]
        exact hlen
  · intro x y cell h
    exact fillCell_preserves_spawnInv defns st x y cell hInv h
  · intro x y cell h0
    unfold fillRegion
    apply foldl_preserves
    · intro s j hs
      apply foldl_preserves
      · intro s2 i hs2
        exact fillCell_preserves_spawnInv _ _ _ _ _ hs2 (Or.inr h0)
      · exact hs
    · exact hInv

/-- Witness for `spawn_invariant_amended`: the two-by-two normalized
state, the source registry, and a `setCellLen(20)` call. -/
theorem spawn_invariant_amended_witness :
    spawnInv (setCellLen (defnsOfList CELL_DEFNS) baseState2 20).1 :=
  (spawn_invariant_amended (defnsOfList CELL_DEFNS) baseState2
      ⟨0, 0xa0ced9, false⟩ (by decide) (by decide) (by decide)).2.2.2.2.1
    20 (by decide) (by decide) (by decide) (by decide)

end MapEditor
